import Mathlib

/-!
# Verification of the firenvim key-translation and configuration core

Shallow embedding of `src/src/KeyHandler.ts` and the configuration module
(`src/unnamed/part_000`, the file exporting `defaultKeyPairs`,
`mergeWithDefaults`, `getGlobalConf` and `getConfForUrl`), together with
theorems settling the specification claims about them.

Modelling conventions:
* JavaScript objects that serve as string-keyed records are modelled as
  association lists (`List (String × _)`); property lookup returns the value
  of the first matching key (JS objects cannot hold duplicate keys), and
  property assignment replaces the value in place, appending when absent.
* JavaScript dynamic values are modelled by the inductive type `JVal`
  (`undefined`, `null`, strings, numbers, booleans, arrays, objects).
  Numbers are modelled as `Int`: every numeric literal in the embedded code
  is an integer and no arithmetic other than comparison occurs.
* A thrown JS exception is modelled as `Except.error`: `JsError.thrown msg`
  for an explicit `throw new Error(msg)`, `JsError.typeError` for an
  unchecked runtime `TypeError` (property access on `undefined`/`null`, or
  a strict-mode write to a primitive).
-/

set_option maxRecDepth 4000

namespace Firenvim

/-! ## Data model: `MappableKeys` and `defaultKeyPairs`
(from `src/unnamed/part_000`, lines 21–91) -/

/-- The fixed closed set of shift-sensitive characters
(`MappableKeys` in `src/unnamed/part_000`). -/
def MappableKeysL : List String :=
  ["1", "!", "2", "@", "3", "#", "4", "$", "5", "%", "6", "^",
   "7", "&", "8", "*", "9", "(", "0", ")", "-", "_", "=", "+",
   "[", "\x7b", "]", "\x7d", "\\", "|", ";", ":", "'", "\"", ",", "<",
   ".", ">", "/", "?", "`", "~"]

/-- The built-in default layout (`defaultKeyPairs` in `src/unnamed/part_000`),
as the association list of its entries in literal order.  (JavaScript
enumerates the integer-like keys `"1"`–`"0"` first, in ascending numeric
order; no result below depends on the enumeration order, so the literal
order is kept.) -/
def defaultKeyPairsL : List (String × String) :=
  [("1", "!"), ("2", "@"), ("3", "#"), ("4", "$"), ("5", "%"),
   ("6", "^"), ("7", "&"), ("8", "*"), ("9", "("), ("0", ")"),
   ("-", "_"), ("=", "+"), ("[", "\x7b"), ("]", "\x7d"), ("\\", "|"),
   (";", ":"), ("'", "\""), (",", "<"), (".", ">"), ("/", "?"),
   ("`", "~")]

/-- The slice of `GlobalSettings` (`src/unnamed/part_000`, lines 109–135)
that the `KeyHandler` reads: the alt-key policy, the per-mode ignore lists,
the `default` keyboard layout, and the three shift-interaction flags. -/
structure GlobalSettings where
  alt : String
  ignoreKeys : List (String × List String)
  layoutDefault : List (String × String)
  shiftAlt : Bool
  shiftCtrl : Bool
  shiftAltCtrl : Bool

/-! ## KeyHandler construction (`src/src/KeyHandler.ts`, lines 8–60) -/

/-- One step of the validation loop of `buildShiftedKeyToKey`
(`src/src/KeyHandler.ts`, lines 23–43).  `visited` holds the shifted keys
marked `true` so far; `cur` is the current value of `keyToShiftedKey`.
`visited[x] === undefined` in the source is exactly `x ∉ MappableKeys`
because `visited` is initialised to `false` at every mappable key.
On an invalid key / invalid shifted key / duplicate shifted key the source
falls through to the reassignment `keyToShiftedKey = defaultKeyPairs`
(without marking); a valid entry marks its shifted key and continues. -/
def buildLoop : List (String × String) → List String → List (String × String) →
    List (String × String)
  | [], _, cur => cur
  | (k, v) :: rest, visited, cur =>
    if ¬ (MappableKeysL.contains k ∧ MappableKeysL.contains v) then
      buildLoop rest visited defaultKeyPairsL
    else if visited.contains v then
      buildLoop rest visited defaultKeyPairsL
    else
      buildLoop rest (v :: visited) cur

/-- The state a `KeyHandler` holds after its constructor ran
`buildShiftedKeyToKey` (`src/src/KeyHandler.ts`, lines 11–49):
the (possibly repaired) settings and the inverse map `shiftedKeyToKey`. -/
structure KeyHandlerState where
  settings : GlobalSettings
  shiftedKeyToKey : List (String × String)

/-- `buildShiftedKeyToKey` (`src/src/KeyHandler.ts`, lines 14–49): run the
validation loop over `settings.keyboard_layouts.default`; the loop leaves
the layout unchanged or replaces it (and `settings.keyboard_layouts.default`)
with `defaultKeyPairs`; then invert the surviving forward map. -/
def mkKeyHandler (s : GlobalSettings) : KeyHandlerState :=
  let forward := buildLoop s.layoutDefault [] s.layoutDefault
  { settings := { s with layoutDefault := forward },
    shiftedKeyToKey := forward.map (fun p => (p.2, p.1)) }

/-- Lookup in a JS object built by successive assignments `o[k] = v` over an
entry list: the last assignment to a key wins. -/
def objLookup (m : List (String × String)) (k : String) : Option String :=
  m.reverse.lookup k

/-- `hasUnshiftedKey` (`src/src/KeyHandler.ts`, lines 51–53):
`shiftedKeyToKey[shifted_key] !== undefined`. -/
def hasUnshiftedKey (m : List (String × String)) (k : String) : Bool :=
  (objLookup m k).isSome

/-- `getUnshiftedKey` (`src/src/KeyHandler.ts`, lines 55–60).  The source
tests the looked-up value for truthiness, so a present-but-empty string
would fall through to the identity; layout values are never empty, but the
test is kept faithful. -/
def getUnshiftedKey (m : List (String × String)) (k : String) : String :=
  match objLookup m k with
  | some v => if v = "" then k else v
  | none => k

/-! ## Key events and the keydown listener (`src/src/KeyHandler.ts`, lines 61–133) -/

/-- A raw keydown event: the key label, the four modifier flags the listener
reads directly, the separate `OS` modifier state (`getModifierState("OS")`,
which old engines report independently of `metaKey`), and the trust flag.
`getModifierState` for `Alt`/`Control`/`Meta`/`Shift` agrees with the
corresponding flag, as the DOM guarantees. -/
structure KeyEvent where
  key : String
  ctrlKey : Bool
  altKey : Bool
  shiftKey : Bool
  metaKey : Bool
  osKey : Bool
  isTrusted : Bool

/-- `evt.getModifierState(attr)` for the five modifier names the listener
queries. -/
def getModifierState (evt : KeyEvent) : String → Bool
  | "Alt" => evt.altKey
  | "Control" => evt.ctrlKey
  | "OS" => evt.osKey
  | "Meta" => evt.metaKey
  | "Shift" => evt.shiftKey
  | _ => false

/-- `specialKeys` (`src/src/KeyHandler.ts`, line 82): modifier name paired
with its notation letter, in the order the listener folds over them. -/
def specialKeys : List (String × String) :=
  [("Alt", "A"), ("Control", "C"), ("OS", "D"), ("Meta", "D")]

/-- Modelled from the spec: `nonLiteralKeys` is exported by
`src/utils/keys.ts`, which is not under `src/`.  The spec (§4.3 step 2)
describes it as a fixed translation table for keys with a non-literal name
"(e.g. Escape, Enter, arrow keys)"; the table below holds those names with
their editor notation. -/
def nonLiteralKeys : List (String × String) :=
  [("Escape", "<Esc>"), ("Enter", "<CR>"), ("Tab", "<Tab>"),
   ("Backspace", "<BS>"), ("Delete", "<Del>"),
   ("ArrowLeft", "<Left>"), ("ArrowRight", "<Right>"),
   ("ArrowUp", "<Up>"), ("ArrowDown", "<Down>")]

/-- Modelled from the spec: `translateKey` from `src/utils/keys.ts` is not
under `src/`.  Per the spec (§4.3 step 2), a key with a known non-literal
name is replaced by its table translation; other keys stand for themselves. -/
def translateKey (k : String) : String :=
  match nonLiteralKeys.lookup k with
  | some v => v
  | none => k

/-- Modelled from the spec: `addModifier` from `src/utils/keys.ts` is not
under `src/`.  Per the spec (§4.1), an active modifier is appended "as a
bracketed prefix accumulated onto the key"; chaining extends the same
bracket, so a key already of the form `<...>` gains the new modifier inside
its bracket and a bare key is wrapped. -/
def addModifier (mod key : String) : String :=
  if key.data.head? = some '<' ∧ key.data.getLast? = some '>' then
    "<" ++ mod ++ "-" ++ key.drop 1
  else
    "<" ++ mod ++ "-" ++ key ++ ">"

/-- The platform escape hatch (`src/src/KeyHandler.ts`, line 78): Alt active,
alt policy `alphanum`, and no character of the raw key is ASCII
alphanumeric (`/[a-zA-Z0-9]/.test` is an unanchored search). -/
def altEscape (s : GlobalSettings) (evt : KeyEvent) : Bool :=
  evt.altKey && s.alt == "alphanum" && !(evt.key.toList.any Char.isAlphanum)

/-- The eligibility test (`src/src/KeyHandler.ts`, lines 84–93): the event is
trusted, and the key either has a non-literal name or is itself none of the
five modifier names while some real modifier is active (`OS` is not part of
`hasModifier`, which reads `shiftKey || altKey || ctrlKey || metaKey`). -/
def translatable (evt : KeyEvent) : Bool :=
  evt.isTrusted &&
    ((nonLiteralKeys.lookup evt.key).isSome ||
      ((["Alt", "Control", "OS", "Meta", "Shift"].all fun m => evt.key ≠ m) &&
        (evt.shiftKey || evt.altKey || evt.ctrlKey || evt.metaKey)))

/-- The modifier/key resolution and composition of the listener
(`src/src/KeyHandler.ts`, lines 94–118): compute the three exclusive
shift-combination flags, pick the modifier list and input key, then fold
`addModifier` over the active modifiers starting from the translated key. -/
def keydownText (st : KeyHandlerState) (evt : KeyEvent) : String :=
  let s := st.settings
  let shiftAlt := evt.shiftKey && evt.altKey && !evt.ctrlKey
  let shiftCtrl := evt.shiftKey && !evt.altKey && evt.ctrlKey
  let shiftAltCtrl := evt.shiftKey && evt.altKey && evt.ctrlKey
  let modsKey :=
    if hasUnshiftedKey st.shiftedKeyToKey evt.key &&
        !((shiftAlt && s.shiftAlt) || (shiftCtrl && s.shiftCtrl) ||
          (shiftAltCtrl && s.shiftAltCtrl)) then
      (specialKeys, evt.key)
    else
      (specialKeys ++ [("Shift", "S")], getUnshiftedKey st.shiftedKeyToKey evt.key)
  modsKey.1.foldl
    (fun key am => if getModifierState evt am.1 then addModifier am.2 key else key)
    (translateKey modsKey.2)

/-- The suppression set (`src/src/KeyHandler.ts`, lines 120–126): the current
mode's ignore list (empty when the mode has none) followed by the wildcard
`all` list. -/
def ignoreList (ik : List (String × List String)) (mode : String) : List String :=
  (match ik.lookup mode with | some l => l | none => []) ++
  (match ik.lookup "all" with | some l => l | none => [])

/-- Outcome of one keydown event.
* `decline`: the listener returned without doing anything (the alt escape
  hatch, or an untrusted/untranslatable event) — the event falls through to
  the platform.
* `suppressed text`: the composed string was in the suppression set — no
  emission, and the event's default action is **not** prevented.
* `emitted text`: the string was emitted on the `input` channel and the
  event's default action and further propagation were suppressed
  (`preventDefault` + `stopImmediatePropagation`). -/
inductive KeyOutcome where
  | decline
  | suppressed (text : String)
  | emitted (text : String)
deriving DecidableEq, Repr

/-- The text an outcome carries, when it carries one. -/
def KeyOutcome.textOf : KeyOutcome → Option String
  | .decline => none
  | .suppressed t => some t
  | .emitted t => some t

/-- The keydown listener (`src/src/KeyHandler.ts`, lines 61–133) as one
transition: escape hatch, eligibility, composition, ignore-list filter. -/
def keydown (st : KeyHandlerState) (currentMode : String) (evt : KeyEvent) :
    KeyOutcome :=
  if altEscape st.settings evt then .decline
  else if translatable evt then
    let text := keydownText st evt
    let keys := ignoreList st.settings.ignoreKeys currentMode
    if keys.contains text then .suppressed text else .emitted text
  else .decline

end Firenvim

namespace Firenvim

/-! ## Helper lemmas for the layout-validation loop -/

theorem contains_true_iff {α : Type} [BEq α] [LawfulBEq α] (l : List α) (a : α) :
    l.contains a = true ↔ a ∈ l := List.elem_iff

/-- Once the loop has replaced the layout with the default, no later entry can
change it back. -/
theorem buildLoop_default (l : List (String × String)) (vis : List String) :
    buildLoop l vis defaultKeyPairsL = defaultKeyPairsL := by
  induction l generalizing vis with
  | nil => rfl
  | cons p rest ih =>
    obtain ⟨k, v⟩ := p
    simp only [buildLoop]
    split
    · exact ih vis
    · split
      · exact ih vis
      · exact ih (v :: vis)

/-- An entry whose key or shifted value lies outside the mappable-key set. -/
def badEntry (p : String × String) : Bool :=
  !(MappableKeysL.contains p.1) || !(MappableKeysL.contains p.2)

/-- Some shifted value occurs twice among the entries. -/
def hasDupSnd : List (String × String) → Bool
  | [] => false
  | p :: l => (l.map Prod.snd).contains p.2 || hasDupSnd l

/-- A configured layout is invalid when it has an entry outside the mappable
set or a shifted value claimed twice. -/
def layoutInvalid (l : List (String × String)) : Bool :=
  l.any badEntry || hasDupSnd l

/-- A single entry outside the mappable-key set forces the default layout. -/
theorem buildLoop_bad (l : List (String × String)) (vis : List String)
    (cur : List (String × String)) (p : String × String)
    (hp : p ∈ l) (hbad : badEntry p = true) :
    buildLoop l vis cur = defaultKeyPairsL := by
  induction l generalizing vis cur with
  | nil => cases hp
  | cons q rest ih =>
    obtain ⟨k, v⟩ := q
    simp only [buildLoop]
    split
    · exact buildLoop_default _ _
    split
    · exact buildLoop_default _ _
    rename_i hkv hvis
    rcases List.mem_cons.mp hp with rfl | hmem
    · exfalso
      rw [not_not] at hkv
      simp only [badEntry, Bool.or_eq_true, Bool.not_eq_true'] at hbad
      rcases hbad with h1 | h2
      · rw [h1] at hkv; exact Bool.false_ne_true hkv.1
      · rw [h2] at hkv; exact Bool.false_ne_true hkv.2
    · exact ih _ _ hmem

/-- An entry whose shifted value was already marked visited forces the
default layout. -/
theorem buildLoop_vis (l : List (String × String)) (vis : List String)
    (cur : List (String × String)) (p : String × String)
    (hp : p ∈ l) (hv : p.2 ∈ vis) :
    buildLoop l vis cur = defaultKeyPairsL := by
  induction l generalizing vis cur with
  | nil => cases hp
  | cons q rest ih =>
    obtain ⟨k, v⟩ := q
    simp only [buildLoop]
    split
    · exact buildLoop_default _ _
    split
    · exact buildLoop_default _ _
    rename_i hkv hvis
    rcases List.mem_cons.mp hp with rfl | hmem
    · exact absurd ((contains_true_iff _ _).mpr hv) (by simpa using hvis)
    · exact ih _ _ hmem (List.mem_cons_of_mem _ hv)

/-- A duplicated shifted value forces the default layout. -/
theorem buildLoop_dup (l : List (String × String)) (vis : List String)
    (cur : List (String × String)) (hd : hasDupSnd l = true) :
    buildLoop l vis cur = defaultKeyPairsL := by
  induction l generalizing vis cur with
  | nil => cases hd
  | cons q rest ih =>
    obtain ⟨k, v⟩ := q
    simp only [buildLoop]
    split
    · exact buildLoop_default _ _
    split
    · exact buildLoop_default _ _
    rename_i hkv hvis
    simp only [hasDupSnd, Bool.or_eq_true] at hd
    rcases hd with hc | hrest
    · have hv : v ∈ rest.map Prod.snd := (contains_true_iff _ _).mp hc
      obtain ⟨p, hp, hpv⟩ := List.mem_map.mp hv
      exact buildLoop_vis rest _ _ p hp (by simp [hpv])
    · exact ih _ _ hrest

/-- The validation loop either replaces the layout with the default or leaves
it unchanged, and in the latter case every entry lies in the mappable set. -/
theorem buildLoop_values (l : List (String × String)) (vis : List String)
    (cur : List (String × String)) :
    buildLoop l vis cur = defaultKeyPairsL ∨
    (buildLoop l vis cur = cur ∧
      l.all (fun p => MappableKeysL.contains p.1 && MappableKeysL.contains p.2) = true) := by
  induction l generalizing vis cur with
  | nil => exact Or.inr ⟨rfl, rfl⟩
  | cons q rest ih =>
    obtain ⟨k, v⟩ := q
    simp only [buildLoop]
    split
    · exact Or.inl (buildLoop_default _ _)
    split
    · exact Or.inl (buildLoop_default _ _)
    rename_i hkv hvis
    rw [not_not] at hkv
    rcases ih (v :: vis) cur with h | ⟨he, hall⟩
    · exact Or.inl h
    · refine Or.inr ⟨he, ?_⟩
      rw [List.all_cons, hkv.1, hkv.2, hall]; rfl

/-- C4: for every configured layout map containing at least one invalid entry
(a key outside the fixed MappableKey set, a shifted value outside that set,
or a shifted value claimed twice), the layout builder discards the entire
configured layout: the forward map becomes the built-in default layout and
the inverse map is the inverse of the default layout, so no entry of the
invalid custom layout survives in the active mapping. -/
theorem C4_invalid_layout_falls_back (s : GlobalSettings)
    (h : layoutInvalid s.layoutDefault = true) :
    (mkKeyHandler s).settings.layoutDefault = defaultKeyPairsL ∧
    (mkKeyHandler s).shiftedKeyToKey = defaultKeyPairsL.map fun p => (p.2, p.1) := by
  have hb : buildLoop s.layoutDefault [] s.layoutDefault = defaultKeyPairsL := by
    simp only [layoutInvalid, Bool.or_eq_true, List.any_eq_true] at h
    rcases h with ⟨p, hp, hbad⟩ | hd
    · exact buildLoop_bad _ _ _ p hp hbad
    · exact buildLoop_dup _ _ _ hd
  exact ⟨by simp [mkKeyHandler, hb], by simp [mkKeyHandler, hb]⟩

/-- Settings whose configured layout holds the single invalid entry
`{ q: ! }` (the key `q` is outside the mappable set). -/
def invalidLayoutSettings : GlobalSettings :=
  { alt := "all", ignoreKeys := [], layoutDefault := [("q", "!")],
    shiftAlt := false, shiftCtrl := true, shiftAltCtrl := true }

/-- Witness for C4 at the concrete invalid layout `{ q: ! }`. -/
theorem C4_invalid_layout_falls_back_witness :
    layoutInvalid invalidLayoutSettings.layoutDefault = true ∧
    ((mkKeyHandler invalidLayoutSettings).settings.layoutDefault = defaultKeyPairsL ∧
      (mkKeyHandler invalidLayoutSettings).shiftedKeyToKey
        = defaultKeyPairsL.map fun p => (p.2, p.1)) :=
  ⟨by decide, C4_invalid_layout_falls_back _ (by decide)⟩

/-- Settings holding the built-in default layout (used to state round-trip
facts about the default layout). -/
def baseSettings : GlobalSettings :=
  { alt := "all", ignoreKeys := [], layoutDefault := defaultKeyPairsL,
    shiftAlt := false, shiftCtrl := true, shiftAltCtrl := true }

/-- C8: for every key `k` in the domain of the built-in default layout,
mapping `k` to its shifted character and then applying the unshifted lookup
returns `k`. -/
theorem C8_default_layout_roundtrip : ∀ p ∈ defaultKeyPairsL,
    getUnshiftedKey (mkKeyHandler baseSettings).shiftedKeyToKey p.2 = p.1 := by
  decide

/-- Witness for C8 at the concrete pair `("1", "!")`. -/
theorem C8_default_layout_roundtrip_witness :
    ("1", "!") ∈ defaultKeyPairsL ∧
    getUnshiftedKey (mkKeyHandler baseSettings).shiftedKeyToKey "!" = "1" :=
  ⟨by decide, C8_default_layout_roundtrip ("1", "!") (by decide)⟩

end Firenvim

namespace Firenvim

/-! ## Claims about the keydown listener -/

/-- Follows the claim's words (C1): if the active layout has an unshifted
counterpart for the raw key and none of the three exclusivity combinations
(shift+alt without control, shift+control without alt, all three) whose
corresponding flag is set matches the active modifiers, the raw key is used
as-is and Shift does not participate; otherwise the key is replaced by its
unshifted counterpart and Shift participates in modifier composition. -/
def claimShiftResolution (st : KeyHandlerState) (evt : KeyEvent) : String × Bool :=
  let shiftAlt := evt.shiftKey && evt.altKey && !evt.ctrlKey
  let shiftCtrl := evt.shiftKey && !evt.altKey && evt.ctrlKey
  let shiftAltCtrl := evt.shiftKey && evt.altKey && evt.ctrlKey
  if hasUnshiftedKey st.shiftedKeyToKey evt.key &&
      !((shiftAlt && st.settings.shiftAlt) || (shiftCtrl && st.settings.shiftCtrl) ||
        (shiftAltCtrl && st.settings.shiftAltCtrl)) then
    (evt.key, false)
  else
    (getUnshiftedKey st.shiftedKeyToKey evt.key, true)

/-- The composition the claim describes: modifiers are folded over the
resolved key, with Shift taking part only when the resolution says so. -/
def claimComposedText (st : KeyHandlerState) (evt : KeyEvent) : String :=
  let r := claimShiftResolution st evt
  let mods := if r.2 then specialKeys ++ [("Shift", "S")] else specialKeys
  mods.foldl
    (fun key am => if getModifierState evt am.1 then addModifier am.2 key else key)
    (translateKey r.1)

theorem keydownText_eq_claim (st : KeyHandlerState) (evt : KeyEvent) :
    keydownText st evt = claimComposedText st evt := by
  simp only [keydownText, claimComposedText, claimShiftResolution]
  split <;> rfl

/-- C1: for every trusted, translatable keydown event (escape hatch not
taken, eligibility satisfied), the text the listener goes on to filter and
emit is exactly the claim's composition: the raw key with no Shift prefix
when the layout has an unshifted counterpart for it and no set
shift-interaction flag matches the active combination, and otherwise the
unshifted counterpart with Shift participating in modifier composition. -/
theorem C1_shift_disambiguation (st : KeyHandlerState) (mode : String)
    (evt : KeyEvent) (h1 : altEscape st.settings evt = false)
    (h2 : translatable evt = true) :
    (keydown st mode evt).textOf = some (claimComposedText st evt) := by
  unfold keydown
  rw [h1, h2]
  simp only [Bool.false_eq_true, if_false, if_true]
  split <;> simp [KeyOutcome.textOf, keydownText_eq_claim]

/-- The event shift+control+`@` (trusted, no other modifier). -/
def ctrlShiftAtEvent : KeyEvent :=
  { key := "@", ctrlKey := true, altKey := false, shiftKey := true,
    metaKey := false, osKey := false, isTrusted := true }

/-- Witness for C1 at shift+control+`@` under the default-like settings. -/
theorem C1_shift_disambiguation_witness :
    altEscape (mkKeyHandler baseSettings).settings ctrlShiftAtEvent = false ∧
    translatable ctrlShiftAtEvent = true ∧
    (keydown (mkKeyHandler baseSettings) "normal" ctrlShiftAtEvent).textOf
      = some (claimComposedText (mkKeyHandler baseSettings) ctrlShiftAtEvent) :=
  ⟨by decide, by decide,
    C1_shift_disambiguation _ "normal" _ (by decide) (by decide)⟩

/-- C5: the translation path is total — for every handler state, mode and
raw event the keydown listener yields one of the three defined outcomes
(decline / suppress / emit); no error branch exists. -/
theorem C5_translation_total (st : KeyHandlerState) (mode : String)
    (evt : KeyEvent) :
    keydown st mode evt = .decline ∨
    (∃ t, keydown st mode evt = .suppressed t) ∨
    (∃ t, keydown st mode evt = .emitted t) := by
  cases hk : keydown st mode evt with
  | decline => exact Or.inl rfl
  | suppressed t => exact Or.inr (Or.inl ⟨t, rfl⟩)
  | emitted t => exact Or.inr (Or.inr ⟨t, rfl⟩)

/-- C7: for every trusted translatable event, with the suppression set being
the current mode's ignore list concatenated with the wildcard `all` list
(`ignoreList`), membership of the composed string decides the outcome:
a member is suppressed (no emission, default action untouched), a
non-member is emitted (with the default action and propagation stopped). -/
theorem C7_ignore_list_filter (st : KeyHandlerState) (mode : String)
    (evt : KeyEvent) (h1 : altEscape st.settings evt = false)
    (h2 : translatable evt = true) :
    (keydownText st evt ∈ ignoreList st.settings.ignoreKeys mode →
      keydown st mode evt = .suppressed (keydownText st evt)) ∧
    (keydownText st evt ∉ ignoreList st.settings.ignoreKeys mode →
      keydown st mode evt = .emitted (keydownText st evt)) := by
  unfold keydown
  rw [h1, h2]
  simp only [Bool.false_eq_true, if_false, if_true]
  constructor
  · intro hmem
    rw [if_pos ((contains_true_iff _ _).mpr hmem)]
  · intro hmem
    rw [if_neg (fun hc => hmem ((contains_true_iff _ _).mp hc))]

/-- Settings like `baseSettings` but with `<S-C-2>` on the wildcard ignore
list. -/
def ignoreSettings : GlobalSettings :=
  { alt := "all", ignoreKeys := [("all", ["<S-C-2>"])],
    layoutDefault := defaultKeyPairsL,
    shiftAlt := false, shiftCtrl := true, shiftAltCtrl := true }

/-- Witness for C7: under `ignoreSettings`, shift+control+`@` composes to
`<S-C-2>`, which is on the wildcard list, so the event is suppressed. -/
theorem C7_ignore_list_filter_witness :
    altEscape (mkKeyHandler ignoreSettings).settings ctrlShiftAtEvent = false ∧
    translatable ctrlShiftAtEvent = true ∧
    keydown (mkKeyHandler ignoreSettings) "normal" ctrlShiftAtEvent
      = .suppressed (keydownText (mkKeyHandler ignoreSettings) ctrlShiftAtEvent) :=
  ⟨by decide, by decide,
    (C7_ignore_list_filter _ "normal" _ (by decide) (by decide)).1
      ((contains_true_iff _ _).mp (by decide))⟩

end Firenvim

namespace Firenvim

/-! ## C2: shift-only events on a shifted key -/

/-- A lookup hit in an association list means the pair occurs in the list. -/
theorem lookup_mem {α β : Type} [BEq α] [LawfulBEq α] (l : List (α × β))
    (k : α) (v : β) (h : l.lookup k = some v) : (k, v) ∈ l := by
  induction l with
  | nil => cases h
  | cons p rest ih =>
    obtain ⟨a, b⟩ := p
    simp only [List.lookup] at h
    split at h
    · rename_i hka
      obtain rfl := Option.some.inj h
      exact List.mem_cons.mpr (Or.inl (by rw [eq_of_beq hka]))
    · exact List.mem_cons_of_mem _ (ih h)

/-- A lookup hit in a JS-object association list means the pair occurs in
the entry list. -/
theorem objLookup_mem (m : List (String × String)) (k v : String)
    (h : objLookup m k = some v) : (k, v) ∈ m :=
  List.mem_reverse.mp (lookup_mem _ _ _ h)

/-- Every value of the built-in default layout is a mappable key. -/
theorem defaultKeyPairs_values_mappable :
    ∀ q ∈ defaultKeyPairsL, q.2 ∈ MappableKeysL := by decide

/-- Every key of the active inverse map (a value of the surviving forward
layout) lies in the fixed mappable-key set: either the forward map is the
default layout (whose values are mappable) or it is the user layout, which
survived only because every entry was validated. -/
theorem hasUnshifted_key_mappable (s : GlobalSettings) (k : String)
    (h : hasUnshiftedKey (mkKeyHandler s).shiftedKeyToKey k = true) :
    k ∈ MappableKeysL := by
  unfold hasUnshiftedKey mkKeyHandler at h
  obtain ⟨v, hv⟩ := Option.isSome_iff_exists.mp h
  have hmem := objLookup_mem _ _ _ hv
  obtain ⟨p, hp, hpk⟩ := List.mem_map.mp hmem
  obtain rfl : p.2 = k := congrArg Prod.fst hpk
  rcases buildLoop_values s.layoutDefault [] s.layoutDefault with hd | ⟨he, hall⟩
  · rw [hd] at hp
    exact defaultKeyPairs_values_mappable p hp
  · rw [he] at hp
    have hq := List.all_eq_true.mp hall p hp
    simp only [Bool.and_eq_true] at hq
    exact (contains_true_iff _ _).mp hq.2

/-- Facts about mappable keys the shift-only analysis needs: a mappable key
has no non-literal translation and is not a modifier name. -/
theorem mappable_key_props : ∀ k ∈ MappableKeysL,
    nonLiteralKeys.lookup k = none ∧
    (["Alt", "Control", "OS", "Meta", "Shift"].all fun m => k ≠ m) = true := by
  decide

/-- Settings with the default layout and all three shift-interaction flags
false. -/
def noFlagSettings : GlobalSettings :=
  { alt := "all", ignoreKeys := [], layoutDefault := defaultKeyPairsL,
    shiftAlt := false, shiftCtrl := false, shiftAltCtrl := false }

/-- The trusted event shift+`@` with no other modifier. -/
def shiftAtEvent : KeyEvent :=
  { key := "@", ctrlKey := false, altKey := false, shiftKey := true,
    metaKey := false, osKey := false, isTrusted := true }

/-- Counterexample to C2: with only Shift active and key `@` (which is in
the default layout's shifted set), none of the three shift-combination
conditions can hold (each needs Alt or Control), so the already-shifted
branch is always taken — even with every shift-interaction flag false the
listener emits `"@"`, not `"<S-2>"` as the claim's flag-false case
predicts (and not a Control-prefixed string in the flag-true case). -/
theorem C2_counterexample :
    hasUnshiftedKey (mkKeyHandler noFlagSettings).shiftedKeyToKey "@" = true ∧
    keydown (mkKeyHandler noFlagSettings) "normal" shiftAtEvent = .emitted "@" ∧
    ("@" : String) ≠ "<S-2>" :=
  ⟨by decide, by decide, by decide⟩

/-- C2 (amended): for every settings value and trusted keydown event whose
only active modifier is Shift and whose key is in the active layout's
shifted set, the output is the raw shifted key itself — no Shift prefix and
no other modifier prefix — regardless of the values of the three
shift-interaction flags. -/
theorem C2_amended_shift_only_raw (s : GlobalSettings) (mode : String)
    (evt : KeyEvent) (htr : evt.isTrusted = true) (hs : evt.shiftKey = true)
    (ha : evt.altKey = false) (hc : evt.ctrlKey = false)
    (hm : evt.metaKey = false) (ho : evt.osKey = false)
    (hk : hasUnshiftedKey (mkKeyHandler s).shiftedKeyToKey evt.key = true) :
    (keydown (mkKeyHandler s) mode evt).textOf = some evt.key := by
  have hmk := hasUnshifted_key_mappable s evt.key hk
  obtain ⟨hnl, hmod⟩ := mappable_key_props evt.key hmk
  have h1 : altEscape (mkKeyHandler s).settings evt = false := by
    simp [altEscape, ha]
  have h2 : translatable evt = true := by
    rw [translatable, htr, hnl, hmod, hs]
    rfl
  have htext : keydownText (mkKeyHandler s) evt = evt.key := by
    rw [keydownText]
    simp only [hs, ha, hc, hk]
    simp [specialKeys, getModifierState, ha, hc, hm, ho, translateKey, hnl]
  rw [keydown, h1, h2]
  simp only [Bool.false_eq_true, if_false, if_true]
  split <;> simp [KeyOutcome.textOf, htext]

/-- Witness for C2 (amended) at shift+`@` under settings whose
shift-interaction flags are set (showing the flags do not matter). -/
theorem C2_amended_shift_only_raw_witness :
    shiftAtEvent.isTrusted = true ∧
    hasUnshiftedKey (mkKeyHandler baseSettings).shiftedKeyToKey "@" = true ∧
    (keydown (mkKeyHandler baseSettings) "normal" shiftAtEvent).textOf = some "@" :=
  ⟨rfl, by decide,
    C2_amended_shift_only_raw baseSettings "normal" shiftAtEvent rfl rfl rfl rfl
      rfl rfl (by decide)⟩

end Firenvim

namespace Firenvim

/-! ## Dynamic JS values and the configuration module
(`src/unnamed/part_000`, lines 142–274) -/

/-- A JavaScript value as the configuration code can see it. -/
inductive JVal where
  | undef
  | null
  | str (s : String)
  | num (n : Int)
  | bool (b : Bool)
  | arr (xs : List JVal)
  | obj (fs : List (String × JVal))

/-- A JS failure: `thrown msg` is an explicit `throw new Error(msg)`;
`typeError` is an unchecked runtime `TypeError` (property access on
`undefined`/`null`, or a strict-mode property write on a primitive). -/
inductive JsError where
  | typeError
  | thrown (msg : String)
deriving DecidableEq, Repr

/-- Property read on an object's field list: the value, or `undefined` when
the property is absent. -/
def lookupField : List (String × JVal) → String → Option JVal
  | [], _ => none
  | (k, v) :: fs, n => if k = n then some v else lookupField fs n

/-- `obj[name]` on a field list (`undefined` when absent). -/
def getField (fs : List (String × JVal)) (n : String) : JVal :=
  match lookupField fs n with
  | some v => v
  | none => JVal.undef

/-- Property assignment `obj[name] = v`: replace in place, append when
absent. -/
def setField : List (String × JVal) → String → JVal → List (String × JVal)
  | [], n, v => [(n, v)]
  | (k, w) :: fs, n, v => if k = n then (k, v) :: fs else (k, w) :: setField fs n v

/-- `typeof` (the cases arising here: `undefined`, `object` for
null/arrays/objects, and the three primitive types). -/
def typeofJ : JVal → String
  | .undef => "undefined"
  | .null => "object"
  | .str _ => "string"
  | .num _ => "number"
  | .bool _ => "boolean"
  | .arr _ => "object"
  | .obj _ => "object"

/-- `Array.isArray`. -/
def isArrayJ : JVal → Bool
  | .arr _ => true
  | _ => false

/-- `makeDefaults` (`src/unnamed/part_000`, lines 145–153): set the field to
the default when absent (`=== undefined`, which also covers a stored
`undefined`) or when its runtime shape (primitive type and array-ness)
disagrees with the default's; otherwise keep the user value. -/
def makeDefaults (fs : List (String × JVal)) (name : String) (value : JVal) :
    List (String × JVal) :=
  match getField fs name with
  | .undef => setField fs name value
  | v =>
    if typeofJ v ≠ typeofJ value ∨ isArrayJ v ≠ isArrayJ value then
      setField fs name value
    else
      fs

/-- A sequence of `makeDefaults` calls, one per schema entry, in order. -/
def applyDefaults (fs : List (String × JVal)) (schema : List (String × JVal)) :
    List (String × JVal) :=
  schema.foldl (fun a p => makeDefaults a p.1 p.2) fs

/-- `defaultKeyPairs` as a JS object value. -/
def defaultKeyPairsJ : List (String × JVal) :=
  defaultKeyPairsL.map fun p => (p.1, .str p.2)

/-- The `globalSettings` defaults applied before the nested
`keyboard_layouts.default` default (`src/unnamed/part_000`, lines 171–187),
in source order. -/
def gsDefaultsA : List (String × JVal) :=
  [("<C-n>", .str "default"), ("<C-t>", .str "default"), ("<C-w>", .str "default"),
   ("<CS-n>", .str "default"), ("<CS-t>", .str "default"), ("<CS-w>", .str "default"),
   ("ignoreKeys", .obj []), ("keyboard_layouts", .obj [])]

/-- The `globalSettings` defaults applied after the nested layout default
(`src/unnamed/part_000`, lines 193–198), in source order. -/
def gsDefaultsB : List (String × JVal) :=
  [("shiftAlt", .bool false), ("shiftCtrl", .bool true),
   ("shiftAltCtrl", .bool true), ("cmdlineTimeout", .num 3000)]

/-- The default `.*` site entry (`src/unnamed/part_000`, lines 213–225), its
fields in the literal's key order, as iterated by
`makeDefaultLocalSetting`. -/
def siteDefaults : List (String × JVal) :=
  [("cmdline", .str "firenvim"), ("content", .str "text"),
   ("priority", .num 0), ("renderer", .str "canvas"),
   ("selector", .str "textarea:not([readonly], [aria-readonly]), div[role=\"textbox\"]"),
   ("takeover", .str "always"),
   ("filename", .str "{hostname%32}_{pathname%32}_{selector%32}_{timestamp%32}.{extension}")]

/-- The platform-conditional `alt` default (`src/unnamed/part_000`, lines
206–210). -/
def mdAlt (os : String) (gs : List (String × JVal)) : List (String × JVal) :=
  if os = "mac" then makeDefaults gs "alt" (.str "alphanum")
  else makeDefaults gs "alt" (.str "all")

/-- The defaulting steps `mergeWithDefaults` applies inside
`settings.globalSettings` (`src/unnamed/part_000`, lines 171–210), in
source order: the pre-layout fields, the nested
`keyboard_layouts.default`, the post-layout fields, then the
platform-conditional `alt`.  Reading `settings.globalSettings.keyboard_layouts`
when it is `null` is a JS `TypeError`. -/
def mergeGs (os : String) (gs : List (String × JVal)) :
    Except JsError (List (String × JVal)) :=
  match getField (applyDefaults gs gsDefaultsA) "keyboard_layouts" with
  | .obj kl =>
    .ok (mdAlt os (applyDefaults
      (setField (applyDefaults gs gsDefaultsA) "keyboard_layouts"
        (.obj (makeDefaults kl "default" (.obj defaultKeyPairsJ))))
      gsDefaultsB))
  | _ => .error .typeError

/-- `makeDefaultLocalSetting(settings, ".*", …)` applied to
`settings.localSettings` (`src/unnamed/part_000`, lines 154–161 and
213–225): default the `.*` entry to `{}`, then default each of its fields
in the literal's key order.  Reading the entry when it is `null` is a JS
`TypeError`. -/
def mergeLs (ls : List (String × JVal)) : Except JsError (List (String × JVal)) :=
  match getField (makeDefaults ls ".*" (.obj [])) ".*" with
  | .obj star =>
    .ok (setField (makeDefaults ls ".*" (.obj [])) ".*"
      (.obj (applyDefaults star siteDefaults)))
  | _ => .error .typeError

/-- `settings === undefined ? {} : settings` (`src/unnamed/part_000`, lines
162–164). -/
def undefToEmpty : JVal → JVal
  | .undef => .obj []
  | v => v

/-- `mergeWithDefaults` (`src/unnamed/part_000`, lines 144–227).  The source
mutates `settings` in place; here each nested object is read, defaulted and
written back, which coincides for tree-shaped inputs (the settings come out
of JSON-like extension storage, which cannot alias or build cycles).
A `match` arm that reaches a JS `TypeError` — a property access on a
`null`/primitive receiver, or a strict-mode write to a primitive (the file
is an ES module, hence strict) — returns `JsError.typeError`; in
particular a top-level `settings` that is not an object (and not
`undefined`) throws when `settings.globalSettings = {}` is attempted. -/
def mergeWithDefaults (os : String) (settings : JVal) : Except JsError JVal :=
  match undefToEmpty settings with
  | .obj fs =>
    match getField (makeDefaults fs "globalSettings" (.obj [])) "globalSettings" with
    | .obj gs =>
      match mergeGs os gs with
      | .ok gs2 =>
        match getField (makeDefaults
            (setField (makeDefaults fs "globalSettings" (.obj []))
              "globalSettings" (.obj gs2))
            "localSettings" (.obj [])) "localSettings" with
        | .obj ls =>
          match mergeLs ls with
          | .ok ls2 =>
            .ok (.obj (setField (makeDefaults
              (setField (makeDefaults fs "globalSettings" (.obj []))
                "globalSettings" (.obj gs2))
              "localSettings" (.obj [])) "localSettings" (.obj ls2)))
          | .error e => .error e
        | _ => .error .typeError
      | .error e => .error e
    | _ => .error .typeError
  | _ => .error .typeError

end Firenvim

namespace Firenvim

/-! ## Field-level lemmas about `makeDefaults` -/

theorem lookupField_setField_self (fs : List (String × JVal)) (n : String)
    (v : JVal) : lookupField (setField fs n v) n = some v := by
  induction fs with
  | nil => simp [setField, lookupField]
  | cons p fs ih =>
    obtain ⟨k, w⟩ := p
    by_cases hk : k = n
    · simp [setField, lookupField, hk]
    · simp [setField, lookupField, hk, ih]

theorem lookupField_setField_ne (fs : List (String × JVal)) (m n : String)
    (v : JVal) (h : m ≠ n) :
    lookupField (setField fs m v) n = lookupField fs n := by
  induction fs with
  | nil => simp [setField, lookupField, h]
  | cons p fs ih =>
    obtain ⟨k, w⟩ := p
    by_cases hk : k = m
    · subst hk
      simp [setField, lookupField, h]
    · simp [setField, lookupField, hk, ih]

/-- Re-assigning the value a key already has is a no-op. -/
theorem setField_lookup_self (fs : List (String × JVal)) (n : String)
    (v : JVal) (h : lookupField fs n = some v) : setField fs n v = fs := by
  induction fs with
  | nil => cases h
  | cons p fs ih =>
    obtain ⟨k, w⟩ := p
    by_cases hk : k = n
    · subst hk
      rw [lookupField, if_pos rfl] at h
      obtain rfl := Option.some.inj h
      rw [setField, if_pos rfl]
    · rw [lookupField, if_neg hk] at h
      rw [setField, if_neg hk, ih h]

/-- A present, non-`undefined` value is what `getField` returns. -/
theorem lookupField_of_getField (fs : List (String × JVal)) (n : String)
    (v : JVal) (hg : getField fs n = v) (hv : v ≠ .undef) :
    lookupField fs n = some v := by
  unfold getField at hg
  cases hl : lookupField fs n with
  | some w =>
    rw [hl] at hg
    exact congrArg some hg
  | none =>
    rw [hl] at hg
    exact absurd hg.symm hv

theorem lookupField_makeDefaults_ne (fs : List (String × JVal)) (m n : String)
    (v : JVal) (h : m ≠ n) :
    lookupField (makeDefaults fs m v) n = lookupField fs n := by
  unfold makeDefaults
  split
  · exact lookupField_setField_ne _ _ _ _ h
  · split
    · exact lookupField_setField_ne _ _ _ _ h
    · rfl

/-- On a present, non-`undefined` field, `makeDefaults` reduces to its
shape test. -/
theorem makeDefaults_not_undef (fs : List (String × JVal)) (n : String)
    (v : JVal) (hg : getField fs n ≠ .undef) :
    makeDefaults fs n v =
      if typeofJ (getField fs n) ≠ typeofJ v ∨ isArrayJ (getField fs n) ≠ isArrayJ v
      then setField fs n v else fs := by
  unfold makeDefaults
  split
  · rename_i heq
    exact absurd heq hg
  · rfl

/-- After `makeDefaults fs n v`, the field `n` is present with the shape of
`v` (for a default `v` that is not `undefined`). -/
theorem lookupField_makeDefaults_shape (fs : List (String × JVal)) (n : String)
    (v : JVal) :
    ∃ w, lookupField (makeDefaults fs n v) n = some w ∧
      typeofJ w = typeofJ v ∧ isArrayJ w = isArrayJ v := by
  by_cases hg : getField fs n = .undef
  · refine ⟨v, ?_, rfl, rfl⟩
    unfold makeDefaults
    rw [hg]
    exact lookupField_setField_self _ _ _
  · rw [makeDefaults_not_undef fs n v hg]
    split
    · exact ⟨v, lookupField_setField_self _ _ _, rfl, rfl⟩
    · rename_i hshape
      push_neg at hshape
      exact ⟨getField fs n, lookupField_of_getField _ _ _ rfl hg, hshape.1, hshape.2⟩

/-- `makeDefaults` keeps an object unchanged when the field is already
present with a matching shape. -/
theorem makeDefaults_eq_self (fs : List (String × JVal)) (n : String)
    (v w : JVal) (hw : lookupField fs n = some w)
    (h1 : typeofJ w = typeofJ v) (h2 : isArrayJ w = isArrayJ v)
    (hv : typeofJ v ≠ "undefined") : makeDefaults fs n v = fs := by
  have hwu : w ≠ .undef := by
    intro hcontr
    rw [hcontr] at h1
    exact hv h1.symm
  have hg : getField fs n = w := by unfold getField; rw [hw]
  rw [makeDefaults_not_undef fs n v (by rw [hg]; exact hwu), hg,
    if_neg (by push_neg; exact ⟨h1, h2⟩)]

end Firenvim

namespace Firenvim

/-! ## Fold-level lemmas about `applyDefaults` -/

theorem lookupField_applyDefaults_ne (schema : List (String × JVal))
    (fs : List (String × JVal)) (n : String) (h : ∀ p ∈ schema, p.1 ≠ n) :
    lookupField (applyDefaults fs schema) n = lookupField fs n := by
  induction schema generalizing fs with
  | nil => rfl
  | cons p rest ih =>
    rw [applyDefaults, List.foldl_cons, ← applyDefaults,
      ih _ (fun q hq => h q (List.mem_cons_of_mem _ hq)),
      lookupField_makeDefaults_ne _ _ _ _ (h p (List.mem_cons_self _ _))]

theorem applyDefaults_shape (schema : List (String × JVal))
    (fs : List (String × JVal))
    (hnd : schema.Pairwise (fun p q => p.1 ≠ q.1)) :
    ∀ p ∈ schema, ∃ w, lookupField (applyDefaults fs schema) p.1 = some w ∧
      typeofJ w = typeofJ p.2 ∧ isArrayJ w = isArrayJ p.2 := by
  induction schema generalizing fs with
  | nil => intro p hp; cases hp
  | cons q rest ih =>
    intro p hp
    rw [List.pairwise_cons] at hnd
    rcases List.mem_cons.mp hp with rfl | hmem
    · rw [applyDefaults, List.foldl_cons, ← applyDefaults,
        lookupField_applyDefaults_ne rest _ _ (fun r hr => Ne.symm (hnd.1 r hr))]
      exact lookupField_makeDefaults_shape fs p.1 p.2
    · rw [applyDefaults, List.foldl_cons, ← applyDefaults]
      exact ih _ hnd.2 p hmem

theorem applyDefaults_eq_self (schema : List (String × JVal))
    (fs : List (String × JVal))
    (hv : ∀ p ∈ schema, typeofJ p.2 ≠ "undefined")
    (h : ∀ p ∈ schema, ∃ w, lookupField fs p.1 = some w ∧
      typeofJ w = typeofJ p.2 ∧ isArrayJ w = isArrayJ p.2) :
    applyDefaults fs schema = fs := by
  induction schema with
  | nil => rfl
  | cons q rest ih =>
    obtain ⟨w, hw, h1, h2⟩ := h q (List.mem_cons_self _ _)
    rw [applyDefaults, List.foldl_cons,
      makeDefaults_eq_self _ _ _ _ hw h1 h2 (hv q (List.mem_cons_self _ _)), ← applyDefaults]
    exact ih (fun p hp => hv p (List.mem_cons_of_mem _ hp))
      (fun p hp => h p (List.mem_cons_of_mem _ hp))

/-- A schema-named field already present with a matching shape keeps its
user value across `applyDefaults`. -/
theorem lookupField_applyDefaults_keep (schema : List (String × JVal))
    (fs : List (String × JVal)) (p : String × JVal) (w : JVal)
    (hnd : schema.Pairwise (fun a b => a.1 ≠ b.1)) (hp : p ∈ schema)
    (hv : ∀ q ∈ schema, typeofJ q.2 ≠ "undefined")
    (hw : lookupField fs p.1 = some w)
    (h1 : typeofJ w = typeofJ p.2) (h2 : isArrayJ w = isArrayJ p.2) :
    lookupField (applyDefaults fs schema) p.1 = some w := by
  induction schema generalizing fs with
  | nil => cases hp
  | cons q rest ih =>
    rw [List.pairwise_cons] at hnd
    rw [applyDefaults, List.foldl_cons, ← applyDefaults]
    rcases List.mem_cons.mp hp with rfl | hmem
    · rw [makeDefaults_eq_self _ _ _ _ hw h1 h2 (hv p (List.mem_cons_self _ _)),
        lookupField_applyDefaults_ne rest _ _ (fun r hr => Ne.symm (hnd.1 r hr))]
      exact hw
    · exact ih _ hnd.2 hmem (fun r hr => hv r (List.mem_cons_of_mem _ hr))
        (by rw [lookupField_makeDefaults_ne _ _ _ _ (hnd.1 p hmem)]; exact hw)

end Firenvim

namespace Firenvim

/-! ## Idempotence machinery for the merge components -/

theorem getField_of_lookup (fs : List (String × JVal)) (n : String) (v : JVal)
    (h : lookupField fs n = some v) : getField fs n = v := by
  unfold getField
  rw [h]

theorem lookupField_mdAlt_ne (os : String) (gs : List (String × JVal))
    (n : String) (h : n ≠ "alt") :
    lookupField (mdAlt os gs) n = lookupField gs n := by
  unfold mdAlt
  split <;> exact lookupField_makeDefaults_ne _ _ _ _ (Ne.symm h)

theorem lookupField_mdAlt_shape (os : String) (gs : List (String × JVal)) :
    ∃ w, lookupField (mdAlt os gs) "alt" = some w ∧
      typeofJ w = "string" ∧ isArrayJ w = false := by
  unfold mdAlt
  split <;> exact lookupField_makeDefaults_shape _ _ _

theorem mdAlt_eq_self (os : String) (gs : List (String × JVal)) (w : JVal)
    (hw : lookupField gs "alt" = some w) (h1 : typeofJ w = "string")
    (h2 : isArrayJ w = false) : mdAlt os gs = gs := by
  unfold mdAlt
  split <;> exact makeDefaults_eq_self _ _ _ _ hw h1 h2 (by decide)

/-- `mergeGs` evaluated when the layout field is an object. -/
theorem mergeGs_eq_of_obj (os : String) (gs kl : List (String × JVal))
    (h : getField (applyDefaults gs gsDefaultsA) "keyboard_layouts" = .obj kl) :
    mergeGs os gs = .ok (mdAlt os (applyDefaults
      (setField (applyDefaults gs gsDefaultsA) "keyboard_layouts"
        (.obj (makeDefaults kl "default" (.obj defaultKeyPairsJ))))
      gsDefaultsB)) := by
  unfold mergeGs
  rw [h]

/-- Structure of a successful `mergeGs` run: the result, written in terms of
the intermediate objects. -/
theorem mergeGs_ok_inv (os : String) (gs gs' : List (String × JVal))
    (h : mergeGs os gs = .ok gs') :
    ∃ kl, getField (applyDefaults gs gsDefaultsA) "keyboard_layouts" = .obj kl ∧
      gs' = mdAlt os (applyDefaults
        (setField (applyDefaults gs gsDefaultsA) "keyboard_layouts"
          (.obj (makeDefaults kl "default" (.obj defaultKeyPairsJ))))
        gsDefaultsB) := by
  unfold mergeGs at h
  split at h
  · rename_i kl hkl
    exact ⟨kl, hkl, (Except.ok.inj h).symm⟩
  · cases h

/-- A successful `mergeGs` output re-runs to itself. -/
theorem mergeGs_idem (os : String) (gs gs' : List (String × JVal))
    (h : mergeGs os gs = .ok gs') : mergeGs os gs' = .ok gs' := by
  obtain ⟨kl0, hkl0, hgs⟩ := mergeGs_ok_inv os gs gs' h
  set gsA := applyDefaults gs gsDefaultsA with hgsA
  set kl1 := makeDefaults kl0 "default" (.obj defaultKeyPairsJ) with hkl1
  set gs2 := setField gsA "keyboard_layouts" (.obj kl1) with hgs2
  set gsB := applyDefaults gs2 gsDefaultsB with hgsB
  -- key fact: the layout object of the output
  have hklLook : lookupField gs' "keyboard_layouts" = some (.obj kl1) := by
    rw [hgs, lookupField_mdAlt_ne _ _ _ (by decide),
      lookupField_applyDefaults_ne gsDefaultsB _ _ (by decide),
      hgs2, lookupField_setField_self]
  -- every gsDefaultsA field is present in gs' with a matching shape
  have hA : ∀ p ∈ gsDefaultsA, ∃ w, lookupField gs' p.1 = some w ∧
      typeofJ w = typeofJ p.2 ∧ isArrayJ w = isArrayJ p.2 := by
    intro p hp
    by_cases hkl : p.1 = "keyboard_layouts"
    · refine ⟨.obj kl1, by rw [hkl]; exact hklLook, ?_, ?_⟩ <;>
        (fin_cases hp <;> simp_all [typeofJ, isArrayJ])
    · have hsh := applyDefaults_shape gsDefaultsA gs (by decide) p hp
      rw [← hgsA] at hsh
      obtain ⟨w, hw, h1, h2⟩ := hsh
      refine ⟨w, ?_, h1, h2⟩
      rw [hgs, lookupField_mdAlt_ne _ _ _ ?alt,
        lookupField_applyDefaults_ne gsDefaultsB _ _ ?bnames,
        hgs2, lookupField_setField_ne _ _ _ _ (Ne.symm hkl)]
      · exact hw
      case alt => fin_cases hp <;> simp_all
      case bnames =>
        intro q hq
        fin_cases hp <;> fin_cases hq <;> simp_all
  -- every gsDefaultsB field is present in gs' with a matching shape
  have hB : ∀ p ∈ gsDefaultsB, ∃ w, lookupField gs' p.1 = some w ∧
      typeofJ w = typeofJ p.2 ∧ isArrayJ w = isArrayJ p.2 := by
    intro p hp
    obtain ⟨w, hw, h1, h2⟩ := applyDefaults_shape gsDefaultsB gs2 (by decide) p hp
    refine ⟨w, ?_, h1, h2⟩
    rw [hgs, lookupField_mdAlt_ne _ _ _ (by fin_cases hp <;> simp_all)]
    exact hw
  -- the alt field of gs'
  have haltEx : ∃ w, lookupField gs' "alt" = some w ∧
      typeofJ w = "string" ∧ isArrayJ w = false := by
    rw [hgs]
    exact lookupField_mdAlt_shape os gsB
  obtain ⟨wa, hwa, ha1, ha2⟩ := haltEx
  -- second run
  have s1 : applyDefaults gs' gsDefaultsA = gs' :=
    applyDefaults_eq_self _ _ (by decide) hA
  have s2 : makeDefaults kl1 "default" (.obj defaultKeyPairsJ) = kl1 := by
    obtain ⟨w, hw, h1, h2⟩ :=
      lookupField_makeDefaults_shape kl0 "default" (.obj defaultKeyPairsJ)
    exact makeDefaults_eq_self _ _ _ _ hw h1 h2 (by decide)
  have s3 : setField gs' "keyboard_layouts" (.obj kl1) = gs' :=
    setField_lookup_self _ _ _ hklLook
  have s4 : applyDefaults gs' gsDefaultsB = gs' :=
    applyDefaults_eq_self _ _ (by decide) hB
  have s5 : mdAlt os gs' = gs' := mdAlt_eq_self _ _ _ hwa ha1 ha2
  rw [mergeGs_eq_of_obj os gs' kl1
    (by rw [s1]; exact getField_of_lookup _ _ _ hklLook), s2, s1, s3, s4, s5]

end Firenvim

namespace Firenvim

/-- `mergeLs` evaluated when the `.*` entry is an object. -/
theorem mergeLs_eq_of_obj (ls star : List (String × JVal))
    (h : getField (makeDefaults ls ".*" (.obj [])) ".*" = .obj star) :
    mergeLs ls = .ok (setField (makeDefaults ls ".*" (.obj [])) ".*"
      (.obj (applyDefaults star siteDefaults))) := by
  unfold mergeLs
  rw [h]

/-- Structure of a successful `mergeLs` run. -/
theorem mergeLs_ok_inv (ls ls' : List (String × JVal))
    (h : mergeLs ls = .ok ls') :
    ∃ star, getField (makeDefaults ls ".*" (.obj [])) ".*" = .obj star ∧
      ls' = setField (makeDefaults ls ".*" (.obj [])) ".*"
        (.obj (applyDefaults star siteDefaults)) := by
  unfold mergeLs at h
  split at h
  · rename_i star hstar
    exact ⟨star, hstar, (Except.ok.inj h).symm⟩
  · cases h

/-- A successful `mergeLs` output re-runs to itself. -/
theorem mergeLs_idem (ls ls' : List (String × JVal))
    (h : mergeLs ls = .ok ls') : mergeLs ls' = .ok ls' := by
  obtain ⟨star0, hstar0, hls⟩ := mergeLs_ok_inv ls ls' h
  set star1 := applyDefaults star0 siteDefaults with hstar1
  have hlook : lookupField ls' ".*" = some (.obj star1) := by
    rw [hls, lookupField_setField_self]
  have s1 : makeDefaults ls' ".*" (.obj []) = ls' :=
    makeDefaults_eq_self _ _ _ _ hlook rfl rfl (by decide)
  have s2 : applyDefaults star1 siteDefaults = star1 :=
    applyDefaults_eq_self _ _ (by decide)
      (fun p hp => applyDefaults_shape siteDefaults star0 (by decide) p hp)
  have s3 : setField ls' ".*" (.obj star1) = ls' :=
    setField_lookup_self _ _ _ hlook
  rw [mergeLs_eq_of_obj ls' star1
    (by rw [s1]; exact getField_of_lookup _ _ _ hlook), s2, s1, s3]

/-- C6: defaulting is idempotent — for every operating-system string and
every input settings tree on which `mergeWithDefaults` succeeds, applying
it to its own output returns that output unchanged. -/
theorem C6_merge_idempotent (os : String) (s t : JVal)
    (h : mergeWithDefaults os s = .ok t) : mergeWithDefaults os t = .ok t := by
  unfold mergeWithDefaults at h
  split at h
  · rename_i fs0 hfs0
    split at h
    · rename_i gsA hgsA
      split at h
      · rename_i gsM hmg
        split at h
        · rename_i lsA hlsA
          split at h
          · rename_i lsM hml
            obtain rfl : JVal.obj _ = t := Except.ok.inj h
            set F := setField (makeDefaults
              (setField (makeDefaults fs0 "globalSettings" (.obj []))
                "globalSettings" (.obj gsM))
              "localSettings" (.obj [])) "localSettings" (.obj lsM) with hF
            have hgsLook : lookupField F "globalSettings" = some (.obj gsM) := by
              rw [hF, lookupField_setField_ne _ _ _ _ (by decide),
                lookupField_makeDefaults_ne _ _ _ _ (by decide),
                lookupField_setField_self]
            have hlsLook : lookupField F "localSettings" = some (.obj lsM) := by
              rw [hF, lookupField_setField_self]
            have e1 : makeDefaults F "globalSettings" (.obj []) = F :=
              makeDefaults_eq_self _ _ _ _ hgsLook rfl rfl (by decide)
            have e2 : mergeGs os gsM = .ok gsM := mergeGs_idem _ _ _ hmg
            have e3 : makeDefaults F "localSettings" (.obj []) = F :=
              makeDefaults_eq_self _ _ _ _ hlsLook rfl rfl (by decide)
            have e4 : mergeLs lsM = .ok lsM := mergeLs_idem _ _ hml
            have e5 : setField F "globalSettings" (.obj gsM) = F :=
              setField_lookup_self _ _ _ hgsLook
            have e6 : setField F "localSettings" (.obj lsM) = F :=
              setField_lookup_self _ _ _ hlsLook
            unfold mergeWithDefaults
            split
            · rename_i fs hfs
              simp only [undefToEmpty] at hfs
              obtain rfl : fs = F := (JVal.obj.inj hfs).symm
              rw [e1, getField_of_lookup _ _ _ hgsLook]
              split
              · rename_i gs hgs
                obtain rfl : gsM = gs := JVal.obj.inj hgs
                rw [e2]
                split
                · rename_i gsx hgsx
                  obtain rfl : gsM = gsx := Except.ok.inj hgsx
                  rw [e5, e3, getField_of_lookup _ _ _ hlsLook]
                  split
                  · rename_i ls hlsx
                    obtain rfl : lsM = ls := JVal.obj.inj hlsx
                    rw [e4]
                    split
                    · rename_i lsx hlsy
                      obtain rfl : lsM = lsx := Except.ok.inj hlsy
                      rw [e6]
                    · rename_i e he
                      cases he
                  · rename_i hne
                    exact absurd rfl (hne lsM)
                · rename_i e he
                  cases he
              · rename_i hne
                exact absurd rfl (hne gsM)
            · rename_i hne
              exact absurd rfl (hne F)
          · cases h
        · cases h
      · cases h
    · cases h
  · cases h

end Firenvim

namespace Firenvim

/-- The `globalSettings` object produced by defaulting an empty tree on a
non-mac platform. -/
def mergedGsLinux : List (String × JVal) :=
  [("<C-n>", .str "default"), ("<C-t>", .str "default"), ("<C-w>", .str "default"),
   ("<CS-n>", .str "default"), ("<CS-t>", .str "default"), ("<CS-w>", .str "default"),
   ("ignoreKeys", .obj []), ("keyboard_layouts", .obj [("default", .obj defaultKeyPairsJ)]),
   ("shiftAlt", .bool false), ("shiftCtrl", .bool true), ("shiftAltCtrl", .bool true),
   ("cmdlineTimeout", .num 3000), ("alt", .str "all")]

/-- The full tree produced by defaulting an empty settings tree on a
non-mac platform. -/
def mergedTopLinux : List (String × JVal) :=
  [("globalSettings", .obj mergedGsLinux),
   ("localSettings", .obj [(".*", .obj siteDefaults)])]

theorem merge_empty_compute :
    mergeWithDefaults "linux" (.obj []) = .ok (.obj mergedTopLinux) := rfl

/-- Witness for C6: the defaults of the empty tree re-merge to themselves. -/
theorem C6_merge_idempotent_witness :
    mergeWithDefaults "linux" (.obj []) = .ok (.obj mergedTopLinux) ∧
    mergeWithDefaults "linux" (.obj mergedTopLinux) = .ok (.obj mergedTopLinux) :=
  ⟨merge_empty_compute,
    C6_merge_idempotent "linux" (.obj []) (.obj mergedTopLinux) merge_empty_compute⟩

end Firenvim

namespace Firenvim

/-! ## Frame lemmas: what the defaulting pipeline can and cannot write -/

/-- A field already present whose value's shape matches every default the
schema gives that name keeps its exact user value across `applyDefaults`
(for a field the schema does not name, the shape condition is vacuous). -/
theorem applyDefaults_keepShape (schema : List (String × JVal))
    (fs : List (String × JVal)) (n : String) (w : JVal)
    (hv : ∀ q ∈ schema, typeofJ q.2 ≠ "undefined")
    (hw : lookupField fs n = some w)
    (hsh : ∀ d, (n, d) ∈ schema → typeofJ w = typeofJ d ∧ isArrayJ w = isArrayJ d) :
    lookupField (applyDefaults fs schema) n = some w := by
  induction schema generalizing fs with
  | nil => exact hw
  | cons q rest ih =>
    rw [applyDefaults, List.foldl_cons, ← applyDefaults]
    by_cases hq : q.1 = n
    · have hd : (n, q.2) ∈ q :: rest := by
        rw [List.mem_cons]
        left
        rw [← hq]
      obtain ⟨h1, h2⟩ := hsh q.2 hd
      rw [makeDefaults_eq_self _ _ _ _ (hq ▸ hw) h1 h2 (hv q (List.mem_cons_self _ _))]
      exact ih _ (fun r hr => hv r (List.mem_cons_of_mem _ hr)) hw
        (fun d hd2 => hsh d (List.mem_cons_of_mem _ hd2))
    · exact ih _ (fun r hr => hv r (List.mem_cons_of_mem _ hr))
        (by rw [lookupField_makeDefaults_ne _ _ _ _ hq]; exact hw)
        (fun d hd2 => hsh d (List.mem_cons_of_mem _ hd2))

/-- Same preservation through the platform-conditional `alt` default. -/
theorem mdAlt_keep (os : String) (gs : List (String × JVal)) (n : String)
    (w : JVal) (hw : lookupField gs n = some w)
    (hsh : n = "alt" → typeofJ w = "string" ∧ isArrayJ w = false) :
    lookupField (mdAlt os gs) n = some w := by
  by_cases h : n = "alt"
  · subst h
    unfold mdAlt
    split
    · rw [makeDefaults_eq_self gs "alt" (.str "alphanum") w hw (hsh rfl).1
        (hsh rfl).2 (by decide)]
      exact hw
    · rw [makeDefaults_eq_self gs "alt" (.str "all") w hw (hsh rfl).1
        (hsh rfl).2 (by decide)]
      exact hw
  · rw [lookupField_mdAlt_ne _ _ _ h]
    exact hw

/-- The names written inside `globalSettings`, with their defaults (`alt`'s
default depends on the platform). -/
def gsSchemaAll (os : String) : List (String × JVal) :=
  gsDefaultsA ++ gsDefaultsB ++
    [("alt", .str (if os = "mac" then "alphanum" else "all"))]

/-- The names the defaulting pipeline writes inside `globalSettings`. -/
def gsSchemaNames : List String :=
  ["<C-n>", "<C-t>", "<C-w>", "<CS-n>", "<CS-t>", "<CS-w>", "ignoreKeys",
   "keyboard_layouts", "shiftAlt", "shiftCtrl", "shiftAltCtrl",
   "cmdlineTimeout", "alt"]

/-- The names the defaulting pipeline writes inside the `.*` site entry. -/
def siteNames : List String :=
  ["cmdline", "content", "priority", "renderer", "selector", "takeover",
   "filename"]

theorem gsA_names_ne (n : String) (hn : n ∉ gsSchemaNames) :
    ∀ q ∈ gsDefaultsA, q.1 ≠ n := by
  intro q hq
  fin_cases hq <;> (intro heq; subst heq; exact hn (by decide))

theorem gsB_names_ne (n : String) (hn : n ∉ gsSchemaNames) :
    ∀ q ∈ gsDefaultsB, q.1 ≠ n := by
  intro q hq
  fin_cases hq <;> (intro heq; subst heq; exact hn (by decide))

theorem site_names_ne (n : String) (hn : n ∉ siteNames) :
    ∀ q ∈ siteDefaults, q.1 ≠ n := by
  intro q hq
  fin_cases hq <;> (intro heq; subst heq; exact hn (by decide))

/-- What `mergeGs` leaves alone: fields outside its schema are returned with
their original lookup result. -/
theorem mergeGs_frame (os : String) (gs gsM : List (String × JVal))
    (hmg : mergeGs os gs = .ok gsM) (n : String) (hn : n ∉ gsSchemaNames) :
    lookupField gsM n = lookupField gs n := by
  obtain ⟨kl0, hkl0, hgs⟩ := mergeGs_ok_inv os gs gsM hmg
  rw [hgs, lookupField_mdAlt_ne _ _ _ (fun heq => hn (by rw [heq]; decide)),
    lookupField_applyDefaults_ne gsDefaultsB _ _ (gsB_names_ne n hn),
    lookupField_setField_ne _ _ _ _ (fun heq => hn (by rw [← heq]; decide)),
    lookupField_applyDefaults_ne gsDefaultsA _ _ (gsA_names_ne n hn)]

/-- What `mergeGs` keeps: any present field other than `keyboard_layouts`
whose value's shape matches every default its name has in the schema
(vacuously, any unnamed present field) keeps its exact value. -/
theorem mergeGs_keep (os : String) (gs gsM : List (String × JVal))
    (hmg : mergeGs os gs = .ok gsM) (n : String) (w : JVal)
    (hkl : n ≠ "keyboard_layouts") (hw : lookupField gs n = some w)
    (hsh : ∀ d, (n, d) ∈ gsSchemaAll os →
      typeofJ w = typeofJ d ∧ isArrayJ w = isArrayJ d) :
    lookupField gsM n = some w := by
  obtain ⟨kl0, hkl0, hgs⟩ := mergeGs_ok_inv os gs gsM hmg
  rw [hgs]
  have h1 : lookupField (applyDefaults gs gsDefaultsA) n = some w :=
    applyDefaults_keepShape gsDefaultsA gs n w (by decide) hw
      (fun d hd => hsh d (by
        rw [gsSchemaAll]
        exact List.mem_append_left _ (List.mem_append_left _ hd)))
  have h2 : lookupField (setField (applyDefaults gs gsDefaultsA)
      "keyboard_layouts"
      (.obj (makeDefaults kl0 "default" (.obj defaultKeyPairsJ)))) n = some w := by
    rw [lookupField_setField_ne _ _ _ _ (Ne.symm hkl)]
    exact h1
  have h3 : lookupField (applyDefaults (setField (applyDefaults gs gsDefaultsA)
      "keyboard_layouts"
      (.obj (makeDefaults kl0 "default" (.obj defaultKeyPairsJ))))
      gsDefaultsB) n = some w :=
    applyDefaults_keepShape gsDefaultsB _ n w (by decide) h2
      (fun d hd => hsh d (by
        rw [gsSchemaAll]
        exact List.mem_append_left _ (List.mem_append_right _ hd)))
  apply mdAlt_keep os _ n w h3
  intro haltn
  subst haltn
  obtain ⟨u, v⟩ := hsh (.str (if os = "mac" then "alphanum" else "all")) (by
    rw [gsSchemaAll]
    exact List.mem_append_right _ (List.mem_cons_self _ _))
  exact ⟨u, v⟩

end Firenvim

namespace Firenvim

/-- Structure of a successful top-level merge on an object input. -/
theorem merge_ok_inv (os : String) (fs : List (String × JVal)) (t : JVal)
    (h : mergeWithDefaults os (.obj fs) = .ok t) :
    ∃ gsA gsM lsA lsM,
      getField (makeDefaults fs "globalSettings" (.obj [])) "globalSettings"
        = .obj gsA ∧
      mergeGs os gsA = .ok gsM ∧
      getField (makeDefaults
        (setField (makeDefaults fs "globalSettings" (.obj []))
          "globalSettings" (.obj gsM))
        "localSettings" (.obj [])) "localSettings" = .obj lsA ∧
      mergeLs lsA = .ok lsM ∧
      t = .obj (setField (makeDefaults
        (setField (makeDefaults fs "globalSettings" (.obj []))
          "globalSettings" (.obj gsM))
        "localSettings" (.obj [])) "localSettings" (.obj lsM)) := by
  unfold mergeWithDefaults at h
  split at h
  · rename_i fs0 hfs0
    simp only [undefToEmpty] at hfs0
    obtain rfl : fs = fs0 := JVal.obj.inj hfs0
    split at h
    · rename_i gsA hgsA
      split at h
      · rename_i gsM hmg
        split at h
        · rename_i lsA hlsA
          split at h
          · rename_i lsM hml
            exact ⟨gsA, gsM, lsA, lsM, hgsA, hmg, hlsA, hml,
              (Except.ok.inj h).symm⟩
          · cases h
        · cases h
      · cases h
    · cases h
  · rename_i hne
    simp only [undefToEmpty] at hne
    exact absurd rfl (hne fs)

end Firenvim

namespace Firenvim

/-- C10 (amended): the defaulting merge only writes schema-named fields.
On a successful merge of an object tree: (1) every top-level key other
than `globalSettings`/`localSettings` keeps its original lookup result;
(2) when the user's `globalSettings` is an object, the result's
`globalSettings` is its merge, in which every key outside the schema names
is unchanged, every present field other than the recursed
`keyboard_layouts` container whose shape matches its schema defaults keeps
its exact user value, and inside a user `keyboard_layouts` object every
key other than `default` is unchanged while an object-shaped user
`default` layout is kept verbatim; (3) symmetrically for `localSettings`:
site entries other than `.*` are untouched, and inside an object `.*`
entry unnamed keys are unchanged and present fields with schema-matching
shapes keep their user values.  (Container-typed named fields —
`globalSettings`, `localSettings`, `keyboard_layouts`, `.*` — are *not*
returned with their user value unchanged: missing sub-fields are filled
in, which is what the counterexample exhibits.) -/
theorem C10_frame_only_schema_fields (os : String)
    (fs fs' : List (String × JVal))
    (h : mergeWithDefaults os (.obj fs) = .ok (.obj fs')) :
    (∀ n, n ≠ "globalSettings" → n ≠ "localSettings" →
      lookupField fs' n = lookupField fs n) ∧
    (∀ gs, lookupField fs "globalSettings" = some (.obj gs) →
      ∃ gsr, lookupField fs' "globalSettings" = some (.obj gsr) ∧
        (∀ n, n ∉ gsSchemaNames → lookupField gsr n = lookupField gs n) ∧
        (∀ n w, n ≠ "keyboard_layouts" → lookupField gs n = some w →
          (∀ d, (n, d) ∈ gsSchemaAll os →
            typeofJ w = typeofJ d ∧ isArrayJ w = isArrayJ d) →
          lookupField gsr n = some w) ∧
        (∀ kl, lookupField gs "keyboard_layouts" = some (.obj kl) →
          ∃ klr, lookupField gsr "keyboard_layouts" = some (.obj klr) ∧
            (∀ n, n ≠ "default" → lookupField klr n = lookupField kl n) ∧
            (∀ w, lookupField kl "default" = some w → typeofJ w = "object" →
              isArrayJ w = false → lookupField klr "default" = some w))) ∧
    (∀ ls, lookupField fs "localSettings" = some (.obj ls) →
      ∃ lsr, lookupField fs' "localSettings" = some (.obj lsr) ∧
        (∀ site, site ≠ ".*" → lookupField lsr site = lookupField ls site) ∧
        (∀ st, lookupField ls ".*" = some (.obj st) →
          ∃ str2, lookupField lsr ".*" = some (.obj str2) ∧
            (∀ n, n ∉ siteNames → lookupField str2 n = lookupField st n) ∧
            (∀ n w, lookupField st n = some w →
              (∀ d, (n, d) ∈ siteDefaults →
                typeofJ w = typeofJ d ∧ isArrayJ w = isArrayJ d) →
              lookupField str2 n = some w))) := by
  obtain ⟨gsA, gsM, lsA, lsM, hgsA, hmg, hlsA, hml, ht⟩ := merge_ok_inv os fs _ h
  obtain rfl : fs' = _ := JVal.obj.inj ht
  refine ⟨?top, ?gspart, ?lspart⟩
  case top =>
    intro n hg hl
    rw [lookupField_setField_ne _ _ _ _ (Ne.symm hl),
      lookupField_makeDefaults_ne _ _ _ _ (Ne.symm hl),
      lookupField_setField_ne _ _ _ _ (Ne.symm hg),
      lookupField_makeDefaults_ne _ _ _ _ (Ne.symm hg)]
  case gspart =>
    intro gs hgs
    have e1 : makeDefaults fs "globalSettings" (.obj []) = fs :=
      makeDefaults_eq_self _ _ _ _ hgs rfl rfl (by decide)
    rw [e1] at hgsA
    obtain rfl : gs = gsA :=
      (JVal.obj.inj (hgsA.symm.trans (getField_of_lookup _ _ _ hgs))).symm
    refine ⟨gsM, ?_, ?_, ?_, ?_⟩
    · rw [lookupField_setField_ne _ _ _ _ (by decide),
        lookupField_makeDefaults_ne _ _ _ _ (by decide),
        lookupField_setField_self]
    · exact fun n hn => mergeGs_frame os gs gsM hmg n hn
    · exact fun n w hkl hw hsh => mergeGs_keep os gs gsM hmg n w hkl hw hsh
    · intro kl hkl
      obtain ⟨kl0, hkl0, hgsM⟩ := mergeGs_ok_inv os gs gsM hmg
      have hklA : lookupField (applyDefaults gs gsDefaultsA) "keyboard_layouts"
          = some (.obj kl) :=
        applyDefaults_keepShape gsDefaultsA gs _ _ (by decide) hkl
          (fun d hd => by
            simp [gsDefaultsA] at hd
            subst hd
            exact ⟨rfl, rfl⟩)
      obtain rfl : kl = kl0 :=
        (JVal.obj.inj (hkl0.symm.trans (getField_of_lookup _ _ _ hklA))).symm
      refine ⟨makeDefaults kl "default" (.obj defaultKeyPairsJ), ?_, ?_, ?_⟩
      · rw [hgsM, lookupField_mdAlt_ne _ _ _ (by decide),
          lookupField_applyDefaults_ne gsDefaultsB _ _ (by decide),
          lookupField_setField_self]
      · intro n hn
        rw [lookupField_makeDefaults_ne _ _ _ _ (Ne.symm hn)]
      · intro w hw h1 h2
        rw [makeDefaults_eq_self kl "default" (.obj defaultKeyPairsJ) w hw h1 h2
          (by decide)]
        exact hw
  case lspart =>
    intro ls hls
    have hfs2 : lookupField (setField (makeDefaults fs "globalSettings" (.obj []))
        "globalSettings" (.obj gsM)) "localSettings" = some (.obj ls) := by
      rw [lookupField_setField_ne _ _ _ _ (by decide),
        lookupField_makeDefaults_ne _ _ _ _ (by decide)]
      exact hls
    have e3 : makeDefaults (setField (makeDefaults fs "globalSettings" (.obj []))
        "globalSettings" (.obj gsM)) "localSettings" (.obj [])
        = setField (makeDefaults fs "globalSettings" (.obj []))
          "globalSettings" (.obj gsM) :=
      makeDefaults_eq_self _ _ _ _ hfs2 rfl rfl (by decide)
    rw [e3] at hlsA
    obtain rfl : ls = lsA :=
      (JVal.obj.inj (hlsA.symm.trans (getField_of_lookup _ _ _ hfs2))).symm
    refine ⟨lsM, lookupField_setField_self _ _ _, ?_, ?_⟩
    · intro site hsite
      obtain ⟨star0, hstar0, hlsM⟩ := mergeLs_ok_inv ls lsM hml
      rw [hlsM, lookupField_setField_ne _ _ _ _ (Ne.symm hsite),
        lookupField_makeDefaults_ne _ _ _ _ (Ne.symm hsite)]
    · intro st hst
      obtain ⟨star0, hstar0, hlsM⟩ := mergeLs_ok_inv ls lsM hml
      have e4 : makeDefaults ls ".*" (.obj []) = ls :=
        makeDefaults_eq_self _ _ _ _ hst rfl rfl (by decide)
      rw [e4] at hstar0 hlsM
      obtain rfl : st = star0 :=
        (JVal.obj.inj (hstar0.symm.trans (getField_of_lookup _ _ _ hst))).symm
      refine ⟨applyDefaults st siteDefaults, ?_, ?_, ?_⟩
      · rw [hlsM, lookupField_setField_self]
      · intro n hn
        exact lookupField_applyDefaults_ne siteDefaults _ _ (site_names_ne n hn)
      · intro n w hw hsh
        exact applyDefaults_keepShape siteDefaults st n w (by decide) hw hsh

end Firenvim

namespace Firenvim

/-- Counterexample to C10 as stated: in the user tree
`{ globalSettings: {} }` the schema-named field `globalSettings` is present
and its runtime shape (a non-array object) matches the schema default
`{}` exactly — yet the merge does not leave it with its user-supplied
value `{}`: the returned `globalSettings` is the fully populated defaults
object.  (The claim's "named field whose shape matches is left with its
user value" fails for the container-typed named fields.) -/
theorem C10_counterexample :
    mergeWithDefaults "linux" (.obj [("globalSettings", .obj [])])
      = .ok (.obj mergedTopLinux) ∧
    lookupField [("globalSettings", JVal.obj [])] "globalSettings"
      = some (.obj []) ∧
    (typeofJ (JVal.obj []) = typeofJ (JVal.obj []) ∧
      isArrayJ (JVal.obj []) = isArrayJ (JVal.obj [])) ∧
    lookupField mergedTopLinux "globalSettings" ≠ some (.obj []) :=
  ⟨rfl, rfl, ⟨rfl, rfl⟩, by simp [mergedTopLinux, mergedGsLinux, lookupField]⟩

/-- The user `globalSettings` object used in the C10 witness. -/
def c10gsIn : List (String × JVal) :=
  [("custom", .str "keep"), ("shiftCtrl", .bool false)]

/-- The user tree used in the C10 witness: one unnamed top-level field, one
unnamed `globalSettings` field, and a shape-matching `shiftCtrl` value. -/
def c10input : List (String × JVal) :=
  [("myExtra", .num 7), ("globalSettings", .obj c10gsIn)]

/-- Witness for C10 (amended): on `c10input`, the merge keeps the unnamed
top-level field `myExtra`, the unnamed `globalSettings` field `custom`, and
the shape-matching user value `shiftCtrl = false`. -/
theorem C10_frame_only_schema_fields_witness :
    ∃ fs', mergeWithDefaults "linux" (.obj c10input) = .ok (.obj fs') ∧
      lookupField fs' "myExtra" = lookupField c10input "myExtra" ∧
      ∃ gsr, lookupField fs' "globalSettings" = some (.obj gsr) ∧
        lookupField gsr "custom" = lookupField c10gsIn "custom" ∧
        lookupField gsr "shiftCtrl" = some (.bool false) := by
  have hT := C10_frame_only_schema_fields "linux" c10input _ rfl
  refine ⟨_, rfl, hT.1 "myExtra" (by decide) (by decide), ?_⟩
  obtain ⟨gsr, hgsr, hframe, hkeep, hklp⟩ := hT.2.1 c10gsIn rfl
  exact ⟨gsr, hgsr, hframe "custom" (by decide),
    hkeep "shiftCtrl" (.bool false) (by decide) rfl (fun d hd => by
      simp [gsSchemaAll, gsDefaultsA, gsDefaultsB] at hd
      subst hd
      exact ⟨rfl, rfl⟩)⟩

end Firenvim

namespace Firenvim

/-! ## URL pattern matching and site-config resolution
(`src/unnamed/part_000`, lines 244–274) -/

/-- A regex atom: a literal character or the wildcard `.`. -/
inductive RAtom where
  | lit (c : Char)
  | dot
deriving DecidableEq

/-- A regex piece: an atom matched once, or Kleene-starred. -/
inductive RPiece where
  | once (a : RAtom)
  | star (a : RAtom)
deriving DecidableEq

/-- Modelled from the spec: `new RegExp(pat)` is a host builtin, not
repository code.  The parser covers the constructs the spec's site
patterns use — literal characters, backslash escapes, `.`, and a postfix
`*` — which suffices for the patterns `.*` and `example\.com` the claim
names. -/
def parsePieces : List Char → List RPiece
  | [] => []
  | '\\' :: c :: '*' :: rest => .star (.lit c) :: parsePieces rest
  | '\\' :: c :: rest => .once (.lit c) :: parsePieces rest
  | '.' :: '*' :: rest => .star .dot :: parsePieces rest
  | '.' :: rest => .once .dot :: parsePieces rest
  | c :: '*' :: rest => .star (.lit c) :: parsePieces rest
  | c :: rest => .once (.lit c) :: parsePieces rest

/-- Whether an atom matches one character. -/
def RAtom.matchesChar : RAtom → Char → Bool
  | .lit c, d => c = d
  | .dot, _ => true

/-- Anchored regex match, with explicit fuel (structural recursion so the
function reduces inside the kernel).  Every recursive call strictly
decreases the pair (characters, pieces) lexicographically and the pieces
list is always a suffix of the original, so the fuel chosen in `reMatch`
can never run out. -/
def reMatchF : Nat → List RPiece → List Char → Bool
  | 0, _, _ => false
  | _ + 1, [], _ => true
  | _ + 1, .once _ :: _, [] => false
  | f + 1, .once a :: ps, c :: cs => a.matchesChar c && reMatchF f ps cs
  | f + 1, .star _ :: ps, [] => reMatchF f ps []
  | f + 1, .star a :: ps, c :: cs =>
    reMatchF f ps (c :: cs) || (a.matchesChar c && reMatchF f (.star a :: ps) cs)

/-- Anchored regex match of a piece list against a character list. -/
def reMatch (ps : List RPiece) (cs : List Char) : Bool :=
  reMatchF ((ps.length + 1) * (cs.length + 1)) ps cs

/-- Unanchored search: try to match at every suffix. -/
def testFrom (ps : List RPiece) : List Char → Bool
  | [] => reMatch ps []
  | c :: cs => reMatch ps (c :: cs) || testFrom ps cs

/-- `new RegExp(pat).test(url)` (unanchored search), restricted to the
modelled constructs. -/
def regexTest (pat url : String) : Bool :=
  testFrom (parsePieces pat.toList) url.toList

/-- `or1` (`src/unnamed/part_000`, lines 259–264): a missing priority is
treated as 1.  The source returns any present value unchanged and lets the
comparator subtract; here a present priority is taken as its numeric value
(the theorems below restrict tables to numeric-or-absent priorities, the
only case in which the JS comparator is well defined). -/
def or1 (v : JVal) : Int :=
  match v with
  | .num n => n
  | _ => 1

/-- `Object.entries` of a site entry's value (non-objects contribute no
named fields). -/
def objFieldsOf : JVal → List (String × JVal)
  | .obj fs => fs
  | _ => []

/-- The sort key of a table entry. -/
def priorityOf (e : String × JVal) : Int :=
  or1 (getField (objFieldsOf e.2) "priority")

/-- Stable insertion for the ascending-priority sort: an element is placed
after every earlier element of strictly smaller priority and before the
first of equal or larger priority. -/
def insertByPriority (x : String × JVal) :
    List (String × JVal) → List (String × JVal)
  | [] => [x]
  | y :: ys =>
    if priorityOf y < priorityOf x then y :: insertByPriority x ys
    else x :: y :: ys

/-- `sort((e1, e2) => or1(e1.priority) - or1(e2.priority))`: a stable
ascending sort (JS `Array.prototype.sort` is stable). -/
def sortByPriority (l : List (String × JVal)) : List (String × JVal) :=
  l.foldr insertByPriority []

/-- `Object.assign(acc, cur)`: copy every own field of `cur` onto `acc`. -/
def objAssign (acc fields : List (String × JVal)) : List (String × JVal) :=
  fields.foldl (fun a p => setField a p.1 p.2) acc

/-- `reduce((acc, [_, cur]) => Object.assign(acc, cur), {})` over the
sorted matches. -/
def resolveFold (l : List (String × JVal)) : List (String × JVal) :=
  l.foldl (fun acc e => objAssign acc (objFieldsOf e.2)) []

/-- `getConfForUrl` (`src/unnamed/part_000`, lines 257–274).  When `conf`
itself is still `undefined` (configuration never loaded), the very first
statement `conf.localSettings` throws a `TypeError`; when the site table is
absent the function throws the reported troubleshooting error; otherwise it
filters, sorts and folds the matching entries. -/
def getConfForUrl (conf : JVal) (url : String) : Except JsError JVal :=
  match conf with
  | .undef => .error .typeError
  | .null => .error .typeError
  | c =>
    match (match c with | .obj fs => getField fs "localSettings" | _ => JVal.undef) with
    | .undef => .error (.thrown "Error: your settings are undefined. Try reloading the page. If this error persists, try the troubleshooting guide: https://github.com/glacambre/firenvim/blob/master/TROUBLESHOOTING.md")
    | ls =>
      .ok (.obj (resolveFold (sortByPriority
        ((objFieldsOf ls).filter fun e => regexTest e.1 url))))

/-- `getGlobalConf` (`src/unnamed/part_000`, lines 244–251): an explicit
reported error before the readiness signal (`conf === undefined`),
otherwise `conf.globalSettings`. -/
def getGlobalConf (conf : JVal) : Except JsError JVal :=
  match conf with
  | .undef => .error (.thrown "getGlobalConf called before config was ready")
  | .null => .error .typeError
  | c => .ok (match c with | .obj fs => getField fs "globalSettings" | _ => JVal.undef)

end Firenvim

namespace Firenvim

/-- C9: accessing configuration that was never initialised fails with the
reported configuration error rather than crashing or returning data: when
the site table is absent (the `localSettings` property is missing from the
stored configuration object), `getConfForUrl` throws the documented
troubleshooting error for every URL; and retrieving the global settings
before the readiness signal (while `conf` is still `undefined`) throws the
documented readiness error. -/
theorem C9_uninitialized_config_reported (fs : List (String × JVal))
    (url : String) (h : lookupField fs "localSettings" = none) :
    getConfForUrl (.obj fs) url
      = .error (.thrown "Error: your settings are undefined. Try reloading the page. If this error persists, try the troubleshooting guide: https://github.com/glacambre/firenvim/blob/master/TROUBLESHOOTING.md") ∧
    getGlobalConf JVal.undef
      = .error (.thrown "getGlobalConf called before config was ready") := by
  constructor
  · have hg : getField fs "localSettings" = .undef := by
      unfold getField
      rw [h]
    simp only [getConfForUrl]
    rw [hg]
  · rfl

/-- Witness for C9 at the empty configuration object. -/
theorem C9_uninitialized_config_reported_witness :
    lookupField [] "localSettings" = none ∧
    (getConfForUrl (.obj []) "http://example.com"
      = .error (.thrown "Error: your settings are undefined. Try reloading the page. If this error persists, try the troubleshooting guide: https://github.com/glacambre/firenvim/blob/master/TROUBLESHOOTING.md") ∧
    getGlobalConf JVal.undef
      = .error (.thrown "getGlobalConf called before config was ready")) :=
  ⟨rfl, C9_uninitialized_config_reported [] "http://example.com" rfl⟩

end Firenvim

namespace Firenvim

/-! ## C3: the resolved configuration is a per-field last-match-wins merge -/

/-- No duplicate property names (true of every JS object). -/
def nodupKeys : List (String × JVal) → Bool
  | [] => true
  | p :: fs => !((fs.map Prod.fst).contains p.1) && nodupKeys fs

/-- A well-formed site entry: an object with no duplicate keys, no
explicitly-`undefined` field (impossible in JSON storage), and a numeric or
absent priority (the only case in which the JS sort comparator is well
defined). -/
def wfEntry (e : String × JVal) : Bool :=
  match e.2 with
  | .obj fs =>
    nodupKeys fs &&
    fs.all (fun q => match q.2 with | .undef => false | _ => true) &&
    (match getField fs "priority" with
     | .num _ => true
     | .undef => true
     | _ => false)
  | _ => false

/-- A well-formed site table. -/
def wfTable (tbl : List (String × JVal)) : Bool := tbl.all wfEntry

/-- Follows the claim's words (C3): walking the ascending-priority matches
from the last (highest-priority) entry backwards, the first entry that sets
the field provides its value — later entries' present fields override
earlier ones, unset fields fall through. -/
def lastSetValue : List (String × JVal) → String → JVal
  | [], _ => .undef
  | e :: l, f =>
    match lastSetValue l f with
    | .undef => getField (objFieldsOf e.2) f
    | v => v

/-- Follows the claim's words (C3): the resolved value of each field. -/
def specResolveField (tbl : List (String × JVal)) (url : String) (f : String) :
    JVal :=
  lastSetValue (sortByPriority (tbl.filter fun e => regexTest e.1 url)) f

theorem lookupField_eq_none_of_not_contains (fs : List (String × JVal))
    (f : String) (h : (fs.map Prod.fst).contains f = false) :
    lookupField fs f = none := by
  induction fs with
  | nil => rfl
  | cons p fs ih =>
    simp only [List.map_cons, List.contains_cons, Bool.or_eq_false_iff] at h
    rw [lookupField, if_neg (fun heq => by simp [heq] at h), ih h.2]

/-- `Object.assign` seen through one field: the source's value when the
source names the field, the accumulator's otherwise. -/
theorem getField_objAssign (fields : List (String × JVal))
    (acc : List (String × JVal)) (f : String)
    (hnd : nodupKeys fields = true)
    (hnu : fields.all (fun q => match q.2 with | .undef => false | _ => true) = true) :
    getField (objAssign acc fields) f =
      match getField fields f with
      | .undef => getField acc f
      | v => v := by
  induction fields generalizing acc with
  | nil => rfl
  | cons p fields ih =>
    obtain ⟨k, v⟩ := p
    simp only [nodupKeys, Bool.and_eq_true, Bool.not_eq_true'] at hnd
    simp only [List.all_cons, Bool.and_eq_true] at hnu
    rw [objAssign, List.foldl_cons, ← objAssign]
    rw [ih (setField acc k v) hnd.2 hnu.2]
    by_cases hk : k = f
    · subst hk
      have hnone : lookupField fields k = none :=
        lookupField_eq_none_of_not_contains _ _ hnd.1
    
      have h1 : getField ((k, v) :: fields) k = v := by
        unfold getField
        rw [lookupField, if_pos rfl]
      have h2 : getField fields k = .undef := by
        unfold getField
        rw [hnone]
      rw [h1, h2]
      have h3 : getField (setField acc k v) k = v := by
        unfold getField
        rw [lookupField_setField_self]
      cases v with
      | undef => exact absurd hnu.1 (by simp)
      | null => rw [h3]
      | str s => rw [h3]
      | num n => rw [h3]
      | bool b => rw [h3]
      | arr xs => rw [h3]
      | obj fs2 => rw [h3]
    · have h1 : getField ((k, v) :: fields) f = getField fields f := by
        unfold getField
        rw [lookupField, if_neg hk]
      rw [h1]

      have h2 : getField (setField acc k v) f = getField acc f := by
        unfold getField
        rw [lookupField_setField_ne _ _ _ _ hk]
      cases hf : getField fields f <;> rw [h2]

/-- The fold over sorted matches computes, per field, the
last-match-that-sets-it value. -/
theorem getField_resolveFold_aux (l : List (String × JVal))
    (acc : List (String × JVal)) (f : String)
    (hwf : ∀ e ∈ l, wfEntry e = true) :
    getField (l.foldl (fun a e => objAssign a (objFieldsOf e.2)) acc) f =
      match lastSetValue l f with
      | .undef => getField acc f
      | v => v := by
  induction l generalizing acc with
  | nil => rfl
  | cons e l ih =>
    have hwe := hwf e (List.mem_cons_self _ _)
    obtain ⟨fs, hfs⟩ : ∃ fs, e.2 = .obj fs := by
      unfold wfEntry at hwe
      cases h2 : e.2 <;> rw [h2] at hwe <;> first | exact ⟨_, rfl⟩ | cases hwe
    have hnd : nodupKeys (objFieldsOf e.2) = true := by
      unfold wfEntry at hwe
      rw [hfs] at hwe ⊢
      simp only [Bool.and_eq_true] at hwe
      exact hwe.1.1
    have hnu : (objFieldsOf e.2).all
        (fun q => match q.2 with | .undef => false | _ => true) = true := by
      unfold wfEntry at hwe
      rw [hfs] at hwe ⊢
      simp only [Bool.and_eq_true] at hwe
      exact hwe.1.2
    rw [List.foldl_cons, ih _ (fun x hx => hwf x (List.mem_cons_of_mem _ hx))]
    rw [lastSetValue]
    cases hl : lastSetValue l f with
    | undef =>
      rw [getField_objAssign _ _ _ hnd hnu]
    | null => rfl
    | str s => rfl
    | num n => rfl
    | bool b => rfl
    | arr xs => rfl
    | obj fs2 => rfl

end Firenvim

namespace Firenvim

theorem mem_insertByPriority (x a : String × JVal) (l : List (String × JVal))
    (h : a ∈ insertByPriority x l) : a = x ∨ a ∈ l := by
  induction l with
  | nil => simpa [insertByPriority] using h
  | cons y ys ih =>
    rw [insertByPriority] at h
    split at h
    · rcases List.mem_cons.mp h with rfl | h2
      · exact Or.inr (List.mem_cons_self _ _)
      · rcases ih h2 with rfl | h3
        · exact Or.inl rfl
        · exact Or.inr (List.mem_cons_of_mem _ h3)
    · rcases List.mem_cons.mp h with rfl | h2
      · exact Or.inl rfl
      · exact Or.inr h2

theorem mem_sortByPriority (a : String × JVal) (l : List (String × JVal))
    (h : a ∈ sortByPriority l) : a ∈ l := by
  induction l with
  | nil => cases h
  | cons x l ih =>
    rw [sortByPriority, List.foldr_cons, ← sortByPriority] at h
    rcases mem_insertByPriority x a _ h with rfl | h2
    · exact List.mem_cons_self _ _
    · exact List.mem_cons_of_mem _ (ih h2)

/-- The example table of the claim: `.*` with priority 0 and renderer
`canvas`, `example\.com` with priority 10 and renderer `html`. -/
def exTable : List (String × JVal) :=
  [(".*", .obj [("priority", .num 0), ("renderer", .str "canvas")]),
   ("example\\.com", .obj [("priority", .num 10), ("renderer", .str "html")])]

/-- The configuration object holding the example table. -/
def exConf : JVal := .obj [("localSettings", .obj exTable)]

/-- C3: `getConfForUrl` filters the table entries whose pattern matches the
URL, sorts them ascending by priority (missing priority treated as 1,
stable), and folds them so that, per field, the last (highest-priority)
matching entry that sets the field wins while fields it leaves unset fall
through to earlier matches (`specResolveField`, written from the claim's
words); in particular on the claim's example table `http://example.com`
resolves to renderer `html` and `http://other.com` to renderer `canvas`. -/
theorem C3_resolve_priority_merge (tbl : List (String × JVal)) (url : String)
    (hwf : wfTable tbl = true) :
    (getConfForUrl (.obj [("localSettings", .obj tbl)]) url
      = .ok (.obj (resolveFold (sortByPriority
          (tbl.filter fun e => regexTest e.1 url))))) ∧
    (∀ f, getField (resolveFold (sortByPriority
        (tbl.filter fun e => regexTest e.1 url))) f
      = specResolveField tbl url f) ∧
    (getConfForUrl exConf "http://example.com"
      = .ok (.obj [("priority", .num 10), ("renderer", .str "html")]) ∧
     getField [("priority", JVal.num 10), ("renderer", JVal.str "html")] "renderer"
      = .str "html") ∧
    (getConfForUrl exConf "http://other.com"
      = .ok (.obj [("priority", .num 0), ("renderer", .str "canvas")]) ∧
     getField [("priority", JVal.num 0), ("renderer", JVal.str "canvas")] "renderer"
      = .str "canvas") := by
  refine ⟨rfl, ?_, ⟨by rfl, rfl⟩, ⟨by rfl, rfl⟩⟩
  intro f
  have hwfs : ∀ e ∈ sortByPriority (tbl.filter fun e => regexTest e.1 url),
      wfEntry e = true := by
    intro e he
    exact List.all_eq_true.mp hwf e
      (List.mem_of_mem_filter (mem_sortByPriority e _ he))
  rw [resolveFold, getField_resolveFold_aux _ _ _ hwfs, specResolveField]
  cases hv : lastSetValue (sortByPriority
      (tbl.filter fun e => regexTest e.1 url)) f <;> rfl

/-- Witness for C3 at the example table (which is well formed). -/
theorem C3_resolve_priority_merge_witness :
    wfTable exTable = true ∧
    (getConfForUrl (.obj [("localSettings", .obj exTable)]) "http://example.com"
      = .ok (.obj (resolveFold (sortByPriority
          (exTable.filter fun e => regexTest e.1 "http://example.com")))) ∧
     getField (resolveFold (sortByPriority
        (exTable.filter fun e => regexTest e.1 "http://example.com"))) "renderer"
      = specResolveField exTable "http://example.com" "renderer") :=
  ⟨by decide,
    (C3_resolve_priority_merge exTable "http://example.com" (by decide)).1,
    (C3_resolve_priority_merge exTable "http://example.com" (by decide)).2.1
      "renderer"⟩

end Firenvim
